import Mathlib

/-!
Verification development for the protest-dash server and client core:
the JSON change-report generator, the batched multi-file commit
orchestrator (`POST /api/batch`), the file-fetch endpoint
(`GET /api/file/:name`) with its default-skeleton substitution, and the
client-side edit buffer.  Server code is embedded from `server/index.js`
(the current variant, using the anonymized actor hash); client code from
`web/src/App.tsx`.
-/

/-- JSON values as the server manipulates them.  Object fields keep their
textual order (JavaScript objects preserve insertion order); numbers are
modelled as integers, which covers every payload the dashboard produces. -/
inductive Json where
  | null : Json
  | bool (b : Bool) : Json
  | num (n : Int) : Json
  | str (s : String) : Json
  | arr (xs : List Json) : Json
  | obj (kvs : List (String × Json)) : Json

mutual

/-- Structural equality of JSON values.  This is what the source realizes
by comparing `JSON.stringify` outputs: on parsed values whose object
fields keep their textual order, stringify outputs coincide exactly when
the trees coincide. -/
def Json.beq : Json → Json → Bool
  | .null, .null => true
  | .bool a, .bool b => a == b
  | .num a, .num b => a == b
  | .str a, .str b => a == b
  | .arr xs, .arr ys => Json.beqList xs ys
  | .obj kvs, .obj lws => Json.beqObj kvs lws
  | _, _ => false

/-- Structural equality of JSON value lists. -/
def Json.beqList : List Json → List Json → Bool
  | [], [] => true
  | x :: xs, y :: ys => Json.beq x y && Json.beqList xs ys
  | _, _ => false

/-- Structural equality of JSON object field lists (order-sensitive, as
`JSON.stringify` is). -/
def Json.beqObj : List (String × Json) → List (String × Json) → Bool
  | [], [] => true
  | (k, v) :: kvs, (l, w) :: lws => k == l && Json.beq v w && Json.beqObj kvs lws
  | _, _ => false

end

mutual

theorem Json.beq_refl : ∀ a : Json, Json.beq a a = true
  | .null => by rw [Json.beq]
  | .bool a => by rw [Json.beq]; exact beq_self_eq_true a
  | .num a => by rw [Json.beq]; exact beq_self_eq_true a
  | .str a => by rw [Json.beq]; exact beq_self_eq_true a
  | .arr xs => by rw [Json.beq]; exact Json.beqList_refl xs
  | .obj kvs => by rw [Json.beq]; exact Json.beqObj_refl kvs

theorem Json.beqList_refl : ∀ xs : List Json, Json.beqList xs xs = true
  | [] => by rw [Json.beqList]
  | x :: xs => by
      rw [Json.beqList, Json.beq_refl x, Json.beqList_refl xs]; rfl

theorem Json.beqObj_refl : ∀ kvs : List (String × Json), Json.beqObj kvs kvs = true
  | [] => by rw [Json.beqObj]
  | (k, v) :: kvs => by
      rw [Json.beqObj, beq_self_eq_true k, Json.beq_refl v, Json.beqObj_refl kvs]; rfl

end

mutual

theorem Json.eq_of_beq : ∀ a b : Json, Json.beq a b = true → a = b
  | .null, .null, _ => rfl
  | .bool a, .bool b, h => by rw [Json.beq] at h; rw [beq_iff_eq.mp h]
  | .num a, .num b, h => by rw [Json.beq] at h; rw [beq_iff_eq.mp h]
  | .str a, .str b, h => by rw [Json.beq] at h; rw [beq_iff_eq.mp h]
  | .arr xs, .arr ys, h => by
      rw [Json.beq] at h; rw [Json.eqList_of_beq xs ys h]
  | .obj kvs, .obj lws, h => by
      rw [Json.beq] at h; rw [Json.eqObj_of_beq kvs lws h]
  | .null, .bool _, h => by simp [Json.beq] at h
  | .null, .num _, h => by simp [Json.beq] at h
  | .null, .str _, h => by simp [Json.beq] at h
  | .null, .arr _, h => by simp [Json.beq] at h
  | .null, .obj _, h => by simp [Json.beq] at h
  | .bool _, .null, h => by simp [Json.beq] at h
  | .bool _, .num _, h => by simp [Json.beq] at h
  | .bool _, .str _, h => by simp [Json.beq] at h
  | .bool _, .arr _, h => by simp [Json.beq] at h
  | .bool _, .obj _, h => by simp [Json.beq] at h
  | .num _, .null, h => by simp [Json.beq] at h
  | .num _, .bool _, h => by simp [Json.beq] at h
  | .num _, .str _, h => by simp [Json.beq] at h
  | .num _, .arr _, h => by simp [Json.beq] at h
  | .num _, .obj _, h => by simp [Json.beq] at h
  | .str _, .null, h => by simp [Json.beq] at h
  | .str _, .bool _, h => by simp [Json.beq] at h
  | .str _, .num _, h => by simp [Json.beq] at h
  | .str _, .arr _, h => by simp [Json.beq] at h
  | .str _, .obj _, h => by simp [Json.beq] at h
  | .arr _, .null, h => by simp [Json.beq] at h
  | .arr _, .bool _, h => by simp [Json.beq] at h
  | .arr _, .num _, h => by simp [Json.beq] at h
  | .arr _, .str _, h => by simp [Json.beq] at h
  | .arr _, .obj _, h => by simp [Json.beq] at h
  | .obj _, .null, h => by simp [Json.beq] at h
  | .obj _, .bool _, h => by simp [Json.beq] at h
  | .obj _, .num _, h => by simp [Json.beq] at h
  | .obj _, .str _, h => by simp [Json.beq] at h
  | .obj _, .arr _, h => by simp [Json.beq] at h

theorem Json.eqList_of_beq : ∀ xs ys : List Json, Json.beqList xs ys = true → xs = ys
  | [], [], _ => rfl
  | x :: xs, y :: ys, h => by
      rw [Json.beqList, Bool.and_eq_true] at h
      obtain ⟨h1, h2⟩ := h
      rw [Json.eq_of_beq x y h1, Json.eqList_of_beq xs ys h2]
  | [], _ :: _, h => by simp [Json.beqList] at h
  | _ :: _, [], h => by simp [Json.beqList] at h

theorem Json.eqObj_of_beq :
    ∀ kvs lws : List (String × Json), Json.beqObj kvs lws = true → kvs = lws
  | [], [], _ => rfl
  | (k, v) :: kvs, (l, w) :: lws, h => by
      rw [Json.beqObj, Bool.and_eq_true, Bool.and_eq_true] at h
      obtain ⟨⟨h1, h2⟩, h3⟩ := h
      rw [beq_iff_eq.mp h1, Json.eq_of_beq v w h2, Json.eqObj_of_beq kvs lws h3]
  | [], _ :: _, h => by simp [Json.beqObj] at h
  | _ :: _, [], h => by simp [Json.beqObj] at h

end

instance : DecidableEq Json := fun a b =>
  if h : Json.beq a b = true then .isTrue (Json.eq_of_beq a b h)
  else .isFalse (fun e => h (e ▸ Json.beq_refl a))

namespace Json

/-- `Array.isArray`. -/
def isArr : Json → Bool
  | .arr _ => true
  | _ => false

/-- Whether the value is JavaScript `null`. -/
def isNull : Json → Bool
  | .null => true
  | _ => false

/-- JavaScript `typeof v === 'object'`: true for `null`, arrays and plain
objects alike, false for booleans, numbers and strings. -/
def typeofObject : Json → Bool
  | .null => true
  | .arr _ => true
  | .obj _ => true
  | _ => false

/-- A primitive in the `typeof` sense: boolean, number or string. -/
def isPrim : Json → Bool
  | .bool _ => true
  | .num _ => true
  | .str _ => true
  | _ => false

/-- The element list of an array value (callers guard with `isArr`). -/
def toArr : Json → List Json
  | .arr xs => xs
  | _ => []

end Json

/-- A JavaScript expression value: either `undefined` or a JSON value.
Property reads of absent keys produce `undefined`. -/
inductive JsVal where
  | undefined : JsVal
  | val (j : Json) : JsVal
deriving DecidableEq

/-- JavaScript falsiness of a JSON value (`undefined` is handled at the
`JsVal` level): `null`, `false`, `0` and `""` are falsy. -/
def jsFalsy : Json → Bool
  | .null => true
  | .bool b => !b
  | .num n => n == 0
  | .str s => s == ""
  | _ => false

/-- `v || d`: JavaScript or-defaulting of a possibly-undefined value. -/
def jsOr (v : JsVal) (d : Json) : Json :=
  match v with
  | .undefined => d
  | .val j => if jsFalsy j then d else j

/-- Property read `o.k` on a non-null value.  On a plain object the last
binding of the key wins (JSON parsing lets later duplicate keys
overwrite); arrays and primitives have no such named property, giving
`undefined`.  Reading a property of `null` throws, which callers model
separately. -/
def getPropNN (j : Json) (k : String) : JsVal :=
  match j with
  | .obj kvs =>
      match (kvs.filter (fun kv => kv.1 = k)).getLast? with
      | some kv => .val kv.2
      | none => .undefined
  | _ => .undefined

/-- Property read `o.k` as an expression that can throw: reading a
property of `null` raises a `TypeError`. -/
def getProp (j : Json) (k : String) : Except Unit JsVal :=
  match j with
  | .null => .error ()
  | _ => .ok (getPropNN j k)

/-- Optional-chained property read `o?.k`: `null` yields `undefined`
instead of throwing. -/
def getPropOpt (j : Json) (k : String) : JsVal :=
  match j with
  | .null => .undefined
  | _ => getPropNN j k

/-- `v.length` of a non-null, non-undefined value: arrays and strings have
a numeric length, plain objects may carry a literal `length` key, and
numbers/booleans have none (`undefined`). -/
def lenOf : Json → JsVal
  | .arr xs => .val (.num xs.length)
  | .str s => .val (.num s.length)
  | .obj kvs => getPropNN (.obj kvs) "length"
  | _ => .undefined

/-- JavaScript strict equality `===` restricted to the values that arise
here.  `undefined === undefined` holds; primitives compare structurally;
arrays and objects compare by reference, and the two operands always
originate from two separately parsed documents, hence distinct
references. -/
def strictEq : JsVal → JsVal → Bool
  | .undefined, .undefined => true
  | .undefined, .val _ => false
  | .val _, .undefined => false
  | .val a, .val b =>
      match a, b with
      | .null, .null => true
      | .bool x, .bool y => x == y
      | .num x, .num y => x == y
      | .str x, .str y => x == y
      | _, _ => false

/-- Indexed read `v[i]` on a non-null value: array element, string
character, or an object's numerically named key; `undefined` otherwise. -/
def jsIndex (j : Json) (i : Nat) : JsVal :=
  match j with
  | .arr xs =>
      match xs.get? i with
      | some x => .val x
      | none => .undefined
  | .str s =>
      match s.data.get? i with
      | some c => .val (.str (String.singleton c)) | none => .undefined
  | .obj kvs => getPropNN (.obj kvs) (toString i)
  | _ => .undefined

mutual
/-- String conversion as performed by a template literal: `String(v)` for
a JSON value. Arrays join their elements with commas (`Array.prototype.toString`),
objects display as `[object Object]`. -/
def jsDisplay : Json → String
  | .null => "null"
  | .bool true => "true"
  | .bool false => "false"
  | .num n => toString n
  | .str s => s
  | .arr xs => jsDisplayList xs
  | .obj _ => "[object Object]"

/-- Comma-joined display of array elements; a `null` element displays as
the empty string inside an array. -/
def jsDisplayList : List Json → String
  | [] => ""
  | [x] => (match x with | .null => "" | y => jsDisplay y)
  | x :: xs =>
      (match x with | .null => "" | y => jsDisplay y) ++ "," ++ jsDisplayList xs
end

/-- Display of a possibly-undefined value inside a template literal. -/
def jsDisplayVal : JsVal → String
  | .undefined => "undefined"
  | .val j => jsDisplay j

/-- Split a character list on a separator character, JavaScript
`split(sep)` style: `n` separators yield `n + 1` (possibly empty)
groups. -/
def splitOnChar (sep : Char) : List Char → List (List Char)
  | [] => [[]]
  | c :: cs =>
      match splitOnChar sep cs with
      | [] => [[]]
      | g :: gs => if c = sep then [] :: g :: gs else (c :: g) :: gs

/-- `filePath.split('/').pop()`: the last path segment. -/
def fileNameOf (filePath : String) : String :=
  String.mk ((splitOnChar '/' filePath.data).getLastD [])

/-- The array branch of `generateChangeReport` (both contents are lists):
length delta with an added/removed sub-line, or a count of structurally
modified indices.  The per-index comparison in the source is
`JSON.stringify(a) !== JSON.stringify(b)`, which on parsed, field-order
preserving values is exactly structural inequality of `Json`. -/
def arrBranchReport (oldContent newContent : List Json) (fileName : String) : List String :=
  let oldCount := oldContent.length
  let newCount := newContent.length
  if oldCount ≠ newCount then
    ("  - " ++ fileName ++ ": " ++ toString oldCount ++ " → " ++ toString newCount ++ " entries")
      :: (if oldCount < newCount then
            ["    • Added " ++ toString (newCount - oldCount) ++ " new "
              ++ (if newCount - oldCount = 1 then "entry" else "entries")]
          else
            ["    • Removed " ++ toString (oldCount - newCount) ++ " "
              ++ (if oldCount - newCount = 1 then "entry" else "entries")])
  else
    let modified := (oldContent.zip newContent).countP (fun p => p.1 != p.2)
    if modified > 0 then
      ["  - " ++ fileName ++ ": Modified " ++ toString modified ++ " "
        ++ (if modified = 1 then "entry" else "entries")]
    else
      ["  - " ++ fileName ++ ": No changes detected"]

/-- Tail of the object branch of `generateChangeReport` (entered
whenever both inputs satisfy `typeof v === 'object'`, so also for `null`
and mixed array/object pairs): the accumulated `changes` are joined into
one comma-separated line, or the no-changes line when empty. -/
def objBranchFinish (fileName : String) (changes : List String) : List String :=
  if changes.length > 0 then
    ["  - " ++ fileName ++ ": " ++ String.intercalate ", " changes]
  else
    ["  - " ++ fileName ++ ": No changes detected"]

/-- Body of the object branch for two non-null inputs: compare the
or-defaulted titles strictly, then either report a section length delta
or count structurally modified sections.  `oldSections.filter` throws a
`TypeError` when the defaulted old sections value is not an array while
the length comparison found the lengths equal (`Except.error`). -/
def objBranchCore (o n : Json) (fileName : String) : Except Unit (List String) :=
  let oldTitle := jsOr (getPropNN o "title") (.str "")
  let newTitle := jsOr (getPropNN n "title") (.str "")
  let oldSections := jsOr (getPropNN o "sections") (.arr [])
  let newSections := jsOr (getPropNN n "sections") (.arr [])
  let titleChanges : List String :=
    if strictEq (.val oldTitle) (.val newTitle) then [] else ["title"]
  if strictEq (lenOf oldSections) (lenOf newSections) = false then
    .ok (objBranchFinish fileName (titleChanges ++
      [jsDisplayVal (lenOf oldSections) ++ " → " ++ jsDisplayVal (lenOf newSections)
        ++ " sections"]))
  else
    match oldSections with
    | .arr oldS =>
        let modifiedSections := oldS.enum.countP (fun p =>
          match jsIndex newSections p.1 with
          | .undefined => true
          | .val v => p.2 != v)
        .ok (objBranchFinish fileName (titleChanges ++
          (if modifiedSections > 0 then
            [toString modifiedSections ++ " modified "
              ++ (if modifiedSections = 1 then "section" else "sections")]
          else [])))
    | _ => .error ()

/-- The object branch: reading `title` off a `null` input throws a
`TypeError` (the batch route's `catch` sees it); otherwise the
comparison body runs. -/
def objBranchReport (oldContent newContent : Json) (fileName : String) :
    Except Unit (List String) :=
  if oldContent.isNull then .error ()
  else if newContent.isNull then .error ()
  else objBranchCore oldContent newContent fileName

/-- The final `return report.length > 0 ? report : [Updated]` applied to
the selected branch's outcome. -/
def finalizeReport (fileName : String) : Except Unit (List String) → Except Unit (List String)
  | .error e => .error e
  | .ok report =>
      .ok (if report.length > 0 then report else ["  - " ++ fileName ++ ": Updated"])

/-- `generateChangeReport(oldContent, newContent, filePath)` from
`server/index.js`.  Dispatch follows the source's tests: first
`Array.isArray` on both, then `typeof === 'object'` on both (which is
also true of `null`); anything else leaves the report empty and falls
through to the generic `Updated` line.  Returns the report lines, or
`Except.error` when the JavaScript function would throw a `TypeError`. -/
def generateChangeReport (oldContent newContent : Json) (filePath : String) :
    Except Unit (List String) :=
  let fileName := fileNameOf filePath
  finalizeReport fileName
    (if oldContent.isArr && newContent.isArr then
      .ok (arrBranchReport oldContent.toArr newContent.toArr fileName)
    else if oldContent.typeofObject && newContent.typeofObject then
      objBranchReport oldContent newContent fileName
    else .ok [])

/-- The exact condition under which `generateChangeReport` raises: both
inputs land in the object branch (JS `typeof` classes `null`, lists and
objects together), they are not both lists, and either one of them is
`null` (property access throws) or the or-defaulted `sections` values
compare equal in length while the old one is not a list (`filter` is not
a function). -/
def reportRaises (o n : Json) : Bool :=
  o.typeofObject && n.typeofObject && !(o.isArr && n.isArr) &&
    (o.isNull || n.isNull ||
      (let os := jsOr (getPropOpt o "sections") (.arr [])
       let ns := jsOr (getPropOpt n "sections") (.arr [])
       strictEq (lenOf os) (lenOf ns) && !os.isArr))

/-! ### Default skeletons and the `GET /api/file/:name` handler -/

/-- The default skeleton substituted when a file is absent on the remote
store, keyed by bare file name: the four list-shaped files default to
`[]`, every other name to `{title: "", sections: []}`. -/
def defaultForName (name : String) : Json :=
  if name = "locations.json" then .arr []
  else if name = "times.json" then .arr []
  else if name = "repeating-events.json" then .arr []
  else if name = "live.json" then .arr []
  else .obj [("title", .str ""), ("sections", .arr [])]

/-- Default skeleton for a full repository path, keyed by its last
segment (the batch handler's `file.path.split('/').pop()`). -/
def defaultForPath (path : String) : Json :=
  defaultForName (fileNameOf path)

/-- Outcome of the GitHub contents fetch performed by `fetchJsonFile`:
the file was found (content sha plus parsed JSON), the request failed
with an HTTP status, or the body was not valid JSON (`JSON.parse`
throws, an error carrying no HTTP response). -/
inductive FileFetch where
  | found (sha : String) (content : Json)
  | httpError (status : Nat)
  | parseFailure
deriving DecidableEq

/-- Response of `GET /api/file/:name`. -/
inductive FileResp where
  | invalidName
  | success (sha : String) (content : Json)
  | defaultResp (content : Json)
  | failure (status : Nat)
deriving DecidableEq

/-- The `GET /api/file/:name` route handler: reject empty or
slash-containing names with 400 before any remote call; otherwise fetch
`data/<name>` and answer 200 with the content, 200 with the default
skeleton when the store reports 404, or pass the upstream status
through.  The second component records which remote path was requested,
`none` when no remote request is issued. -/
def fileGetHandler (name : String) (fetch : FileFetch) : FileResp × Option String :=
  if name = "" || name.data.contains '/' then
    (.invalidName, none)
  else
    (match fetch with
      | .found sha content => .success sha content
      | .httpError status =>
          if status = 404 then .defaultResp (defaultForName name) else .failure status
      | .parseFailure => .failure 500,
     some ("data/" ++ name))

/-! ### Commit message composition -/

/-- `rec?.anonHash || 'unknown'`: the anonymized actor tag, from the
user record's `anonHash` field alone; absent record, absent field or
empty hash all fall back to `"unknown"`.  The human-readable username
plays no part. -/
def anonTagOf (anonHash : Option String) : String :=
  match anonHash with
  | some h => if h = "" then "unknown" else h
  | none => "unknown"

/-- Composition of the final commit message in `POST /api/batch`:
caller message (or the fixed fallback when absent/empty), a blank line,
the `User:` line with the anonymized tag, and — when there are report
lines — a blank line, a `Changes:` header and the newline-joined report
lines. -/
def composeCommitMessage (commitMessage : Option String) (anon : String)
    (changeReports : List String) : String :=
  let base :=
    match commitMessage with
    | some m => if m = "" then "Update files via dashboard" else m
    | none => "Update files via dashboard"
  let withUser := base ++ "\n\nUser: " ++ anon
  if changeReports.length > 0 then
    withUser ++ "\n\nChanges:\n" ++ String.intercalate "\n" changeReports
  else
    withUser

/-! ### JSON serialization (`JSON.stringify(content, null, 4)`) -/

/-- Lower-case hexadecimal digit. -/
def hexDigit (n : Nat) : Char :=
  if n < 10 then Char.ofNat (48 + n) else Char.ofNat (87 + n)

/-- JSON string escaping as `JSON.stringify` performs it. -/
def escapeJsonChar (c : Char) : String :=
  if c = '"' then "\\\""
  else if c = '\\' then "\\\\"
  else if c = '\n' then "\\n"
  else if c = '\r' then "\\r"
  else if c = '\t' then "\\t"
  else if c = Char.ofNat 8 then "\\b"
  else if c = Char.ofNat 12 then "\\f"
  else if c.toNat < 32 then
    "\\u00" ++ String.mk [hexDigit (c.toNat / 16), hexDigit (c.toNat % 16)]
  else String.singleton c

/-- A JSON string literal with surrounding quotes. -/
def quoteJson (s : String) : String :=
  "\"" ++ String.join (s.data.map escapeJsonChar) ++ "\""

/-- `n` spaces. -/
def indentSpaces (n : Nat) : String :=
  String.mk (List.replicate n ' ')

mutual

/-- Pretty serialization with a 4-space gap at nesting depth `ind`,
matching `JSON.stringify(v, null, 4)`. -/
def stringifyAt (ind : Nat) : Json → String
  | .null => "null"
  | .bool true => "true"
  | .bool false => "false"
  | .num n => toString n
  | .str s => quoteJson s
  | .arr [] => "[]"
  | .arr (x :: xs) =>
      "[\n" ++ stringifyListAt (ind + 4) x xs ++ "\n" ++ indentSpaces ind ++ "]"
  | .obj [] => "\x7b\x7d"
  | .obj ((k, v) :: kvs) =>
      "\x7b\n" ++ stringifyObjAt (ind + 4) k v kvs ++ "\n" ++ indentSpaces ind ++ "\x7d"
termination_by j => sizeOf j

/-- Comma/newline-separated serialization of array elements. -/
def stringifyListAt (ind : Nat) (x : Json) : List Json → String
  | [] => indentSpaces ind ++ stringifyAt ind x
  | y :: ys =>
      indentSpaces ind ++ stringifyAt ind x ++ ",\n" ++ stringifyListAt ind y ys
termination_by ys => sizeOf x + sizeOf ys

/-- Comma/newline-separated serialization of object fields. -/
def stringifyObjAt (ind : Nat) (k : String) (v : Json) :
    List (String × Json) → String
  | [] => indentSpaces ind ++ quoteJson k ++ ": " ++ stringifyAt ind v
  | (l, w) :: lws =>
      indentSpaces ind ++ quoteJson k ++ ": " ++ stringifyAt ind v ++ ",\n"
        ++ stringifyObjAt ind l w lws
termination_by lws => sizeOf v + sizeOf lws

end

/-- `JSON.stringify(content, null, 4)`: the exact text posted as a blob
for each file of a batch commit. -/
def jsonStringify4 (j : Json) : String :=
  stringifyAt 0 j

/-! ### The Git Data API store model and the batch commit orchestrator

Object identifiers (blob/tree/commit shas) are modelled as opaque
natural numbers; association lists are consulted front-first, so a
freshly created object — prepended — shadows any older binding. -/

/-- First-match association list lookup. -/
def alookup {κ α : Type} [DecidableEq κ] : List (κ × α) → κ → Option α
  | [], _ => none
  | (k, v) :: rest, key => if k = key then some v else alookup rest key

/-- Association list update of the first binding of a key (the branch
ref update). -/
def aupdate {κ α : Type} [DecidableEq κ] : List (κ × α) → κ → α → List (κ × α)
  | [], k, v => [(k, v)]
  | (k', v') :: rest, k, v =>
      if k' = k then (k, v) :: rest else (k', v') :: aupdate rest k v

/-- Index-decorated list, `withIdx k [a, b, ...] = [(k, a), (k+1, b), ...]`. -/
def withIdx {α : Type} (k : Nat) : List α → List (Nat × α)
  | [] => []
  | x :: xs => (k, x) :: withIdx (k + 1) xs

/-- One commit object: message, tree id, parent commit ids. -/
structure CommitObj where
  message : String
  tree : Nat
  parents : List Nat
deriving DecidableEq

/-- The remote store: branch refs, commits, trees (path → blob id) and
blobs (id → serialized text). -/
structure GitState where
  refs : List (String × Nat)
  commits : List (Nat × CommitObj)
  trees : List (Nat × List (String × Nat))
  blobs : List (Nat × String)
deriving DecidableEq

/-- One file of a batch request: repository path plus new JSON content. -/
structure FileReq where
  path : String
  content : Json
deriving DecidableEq

/-- Outcome of the per-file old-content fetch inside the batch handler
(`GET contents/<path>?ref=<branch>`): parsed content, a 404, an
invalid-JSON body, or any other upstream error.  All non-success
outcomes are caught by the handler's per-file `catch`. -/
inductive FetchOutcome where
  | success (content : Json)
  | notFound
  | parseError
  | otherError (status : Nat)
deriving DecidableEq

/-- Failure injection for the remote calls of one `commitBatch` run; the
old-content fetches are per-file.  Successful old fetches carry the
content the store would have returned. -/
structure Oracle where
  refFail : Bool
  commitFail : Bool
  oldFetch : Nat → FetchOutcome
  blobFail : Nat → Bool
  treeFail : Bool
  createCommitFail : Bool
  refUpdateFail : Bool

/-- Error taxonomy of one `commitBatch` call, as surfaced by the route's
`catch`: the 400 empty-request rejection, an upstream non-2xx, a thrown
`TypeError` from the report generator, and the non-fast-forward ref
update rejection. -/
inductive BatchError where
  | invalidRequest
  | upstream
  | reportException
  | conflict
deriving DecidableEq

/-- The old content used for reporting on file `f`: the fetched value, or
on any fetch failure the type-appropriate default skeleton for the
file's name. -/
def oldContentFor (outcome : FetchOutcome) (path : String) : Json :=
  match outcome with
  | .success j => j
  | _ => defaultForPath path

/-- Change reports of all files against their old contents, concatenated
in order; a thrown `TypeError` aborts (the route's `catch` sees it). -/
def reportsAll : List (Json × FileReq) → Except Unit (List String)
  | [] => .ok []
  | (old, f) :: rest => do
      let r ← generateChangeReport old f.content f.path
      let rs ← reportsAll rest
      .ok (r ++ rs)

/-- The fresh blob id for the `i`-th file of a batch. -/
def blobIdOf (i : Nat) : Nat := i

/-- The fresh tree and commit ids of a batch (opaque; prepending makes
them shadow any older object with the same id). -/
def newTreeId : Nat := 0

/-- Fresh commit id of a batch. -/
def newCommitId : Nat := 0

/-- The `POST /api/batch` handler (`commitBatch`): reject empty
requests; read the branch tip and its tree; fetch old contents (fetch
failures degrade to default skeletons); generate the change report;
create one blob per file, one tree on top of the base tree, one commit
carrying the composed message; finally advance the branch ref with a
non-forced (compare-with-expected-tip) update.  Returns the result
together with the store state after the call; every failure exit happens
before the ref update, so it returns the store with its refs intact. -/
def commitBatch (o : Oracle) (branch : String) (files : List FileReq)
    (commitMessage : Option String) (anon : String) (st : GitState) :
    Except BatchError Nat × GitState :=
  if files.length = 0 then (.error .invalidRequest, st)
  else if o.refFail then (.error .upstream, st)
  else
    match alookup st.refs branch with
    | none => (.error .upstream, st)
    | some latestCommitSha =>
      if o.commitFail then (.error .upstream, st)
      else
        match alookup st.commits latestCommitSha with
        | none => (.error .upstream, st)
        | some baseCommit =>
          let oldContents :=
            (withIdx 0 files).map fun p => oldContentFor (o.oldFetch p.1) p.2.path
          match reportsAll (oldContents.zip files) with
          | .error _ => (.error .reportException, st)
          | .ok changeReports =>
            let newBlobs :=
              (withIdx 0 files).map fun p => (blobIdOf p.1, jsonStringify4 p.2.content)
            if (List.range files.length).any o.blobFail then
              (.error .upstream, { st with blobs := newBlobs ++ st.blobs })
            else
              let st₁ := { st with blobs := newBlobs ++ st.blobs }
              if o.treeFail then (.error .upstream, st₁)
              else
                match alookup st.trees baseCommit.tree with
                | none => (.error .upstream, st₁)
                | some baseEntries =>
                  let treeEntries :=
                    (withIdx 0 files).map fun p => (p.2.path, blobIdOf p.1)
                  let st₂ := { st₁ with
                    trees := (newTreeId, treeEntries ++ baseEntries) :: st₁.trees }
                  let fullCommitMessage :=
                    composeCommitMessage commitMessage anon changeReports
                  if o.createCommitFail then (.error .upstream, st₂)
                  else
                    let st₃ := { st₂ with
                      commits := (newCommitId,
                        ⟨fullCommitMessage, newTreeId, [latestCommitSha]⟩) :: st₂.commits }
                    if o.refUpdateFail then (.error .upstream, st₃)
                    else if alookup st₃.refs branch ≠ some latestCommitSha then
                      (.error .conflict, st₃)
                    else
                      (.ok newCommitId,
                       { st₃ with refs := aupdate st₃.refs branch newCommitId })

/-- The commit `sha` in `st` points (through its tree) at `path` with
blob text `text`. -/
def commitTreeHas (st : GitState) (sha : Nat) (path text : String) : Prop :=
  ∃ c entries b,
    alookup st.commits sha = some c ∧
    alookup st.trees c.tree = some entries ∧
    alookup entries path = some b ∧
    alookup st.blobs b = some text

/-! ### The client-side edit buffer (`web/src/App.tsx`) -/

/-- Per-file client state (`FileState` in `App.tsx`): content, the sha
returned by the last load (`undefined` when the file was absent
remotely), and the dirty flag. -/
structure ClientFile where
  content : Json
  sha : Option String
  dirty : Bool
deriving DecidableEq

/-- The remote store as the client sees it: a current head per file name
(content sha plus content) and the content-addressed blob store a fetch
at a given revision marker would consult. -/
structure RemoteModel where
  head : String → Option (String × Json)
  blob : String → Option Json

/-- The remote model is coherent: the head's sha addresses the head's
content. -/
def RemoteModel.Coherent (r : RemoteModel) : Prop :=
  ∀ n s c, r.head n = some (s, c) → r.blob s = some c

/-- The client-side load transform applied to fetched content before it
is stored with `dirty: false`: for `times.json` (and an array payload),
drop every entry whose `datetime` does not parse to a timestamp at or
after `now`; all other files are stored as fetched.  `parseDate` stands
for `Date.parse`, returning `none` for `NaN`. -/
def timesClientContent (parseDate : String → Option Int) (now : Int)
    (name : String) (content : Json) : Json :=
  if name = "times.json" then
    match content with
    | .arr xs =>
        .arr (xs.filter fun t =>
          match parseDate (jsDisplay (jsOr (getPropOpt t "datetime") (.str ""))) with
          | none => false
          | some ts => now ≤ ts)
    | j => j
  else content

/-- Client edit-buffer events: `load` is the selected-file load effect
(and the dashboard preload), which filters `times.json`; `loadEnsure`
is the ensure effects that fetch a dependency of the active editor —
`locations.json` when editing times/schedules/live, and, notably,
`times.json` when editing `live.json` — storing `resp.data.content ||
[]` with no past-entry filter; `edit` is a local change through an
editor's `onChange`; `push` is a successful `pushChanges` (a
`commitSha` came back). -/
inductive ClientEvent where
  | load (name : String)
  | loadEnsure (name : String)
  | edit (name : String) (next : Json)
  | push

/-- One client step.  Both load flavours are no-ops when the file is
already tracked (the effects return early); a fetch answering 404
stores the default skeleton with `sha: undefined`.  `load` applies the
`times.json` past-entry filter; `loadEnsure` stores the fetched
content raw, only or-defaulted to `[]`.  `edit` overwrites content and
sets `dirty`.  A successful `push` clears every dirty flag, leaving
contents and revision markers untouched. -/
def clientStep (r : RemoteModel) (parseDate : String → Option Int) (now : Int)
    (st : List (String × ClientFile)) : ClientEvent → List (String × ClientFile)
  | .load name =>
      match alookup st name with
      | some _ => st
      | none =>
          match r.head name with
          | some (sha, content) =>
              aupdate st name ⟨timesClientContent parseDate now name content, some sha, false⟩
          | none =>
              aupdate st name
                ⟨timesClientContent parseDate now name (defaultForName name), none, false⟩
  | .loadEnsure name =>
      match alookup st name with
      | some _ => st
      | none =>
          match r.head name with
          | some (sha, content) =>
              aupdate st name ⟨jsOr (.val content) (.arr []), some sha, false⟩
          | none =>
              aupdate st name ⟨jsOr (.val (defaultForName name)) (.arr []), none, false⟩
  | .edit name next =>
      match alookup st name with
      | some fs => aupdate st name ⟨next, fs.sha, true⟩
      | none => aupdate st name ⟨next, none, true⟩
  | .push =>
      st.map fun p => (p.1, if p.2.dirty then ⟨p.2.content, p.2.sha, false⟩ else p.2)

/-- The client state after a sequence of events, starting from the empty
buffer. -/
def clientRun (r : RemoteModel) (parseDate : String → Option Int) (now : Int)
    (evs : List ClientEvent) : List (String × ClientFile) :=
  evs.foldl (clientStep r parseDate now) []

/-- What a fresh fetch of the file at the stored revision marker
returns: the blob at that sha, or — when the marker records remote
absence — the default skeleton the server substitutes. -/
def fetchAtMarker (r : RemoteModel) (name : String) : Option String → Option Json
  | some s => r.blob s
  | none => some (defaultForName name)

/-! ### Shared lemmas -/

instance {ε α : Type} [DecidableEq ε] [DecidableEq α] : DecidableEq (Except ε α) :=
  fun x y =>
    match x, y with
    | .ok a, .ok b =>
        if h : a = b then .isTrue (by rw [h]) else .isFalse (fun e => h (Except.ok.inj e))
    | .error a, .error b =>
        if h : a = b then .isTrue (by rw [h]) else .isFalse (fun e => h (Except.error.inj e))
    | .ok _, .error _ => .isFalse (fun e => Except.noConfusion e)
    | .error _, .ok _ => .isFalse (fun e => Except.noConfusion e)

theorem alookup_aupdate_self {κ α : Type} [DecidableEq κ] (l : List (κ × α)) (k : κ) (v : α) :
    alookup (aupdate l k v) k = some v := by
  induction l with
  | nil => simp [aupdate, alookup]
  | cons p rest ih =>
      by_cases h : p.1 = k
      · simp [aupdate, alookup, h]
      · simp [aupdate, alookup, h, ih]

theorem alookup_aupdate_other {κ α : Type} [DecidableEq κ] (l : List (κ × α)) (k k' : κ)
    (v : α) (hk : k ≠ k') : alookup (aupdate l k v) k' = alookup l k' := by
  induction l with
  | nil => simp [aupdate, alookup, hk]
  | cons p rest ih =>
      by_cases h : p.1 = k
      · simp [aupdate, alookup, h, hk]
      · simp [aupdate, alookup, h, ih]

theorem alookup_append_left {κ α : Type} [DecidableEq κ] {l₁ : List (κ × α)} {k : κ} {v : α}
    (l₂ : List (κ × α)) (h : alookup l₁ k = some v) : alookup (l₁ ++ l₂) k = some v := by
  induction l₁ with
  | nil => simp [alookup] at h
  | cons p rest ih =>
      by_cases hp : p.1 = k
      · simpa [alookup, hp] using h
      · rw [alookup, if_neg hp] at h
        simpa [alookup, hp] using ih h

theorem countP_zip_self_bne (xs : List Json) :
    (xs.zip xs).countP (fun p => p.1 != p.2) = 0 := by
  induction xs with
  | nil => rfl
  | cons x xs ih => simpa [List.countP_cons] using ih

/-! ### Report generator lemmas -/

theorem objBranchFinish_length (f : String) (cs : List String) :
    (objBranchFinish f cs).length = 1 := by
  unfold objBranchFinish; split <;> rfl

theorem objBranchCore_isOk (o n : Json) (f : String) :
    (objBranchCore o n f).toOption.isSome =
      !(strictEq (lenOf (jsOr (getPropNN o "sections") (.arr [])))
          (lenOf (jsOr (getPropNN n "sections") (.arr []))) &&
        !(jsOr (getPropNN o "sections") (.arr [])).isArr) := by
  unfold objBranchCore
  by_cases hlen : strictEq (lenOf (jsOr (getPropNN o "sections") (.arr [])))
      (lenOf (jsOr (getPropNN n "sections") (.arr []))) = false
  · simp [hlen, Except.toOption]
  · have hlen' : strictEq (lenOf (jsOr (getPropNN o "sections") (.arr [])))
        (lenOf (jsOr (getPropNN n "sections") (.arr []))) = true := by
      revert hlen
      cases strictEq (lenOf (jsOr (getPropNN o "sections") (.arr [])))
        (lenOf (jsOr (getPropNN n "sections") (.arr []))) <;> simp
    cases hos : jsOr (getPropNN o "sections") (.arr []) <;>
      (rw [hos] at hlen'; simp [hlen', Json.isArr, Except.toOption])

theorem getPropOpt_eq_getPropNN (o : Json) (k : String) (ho : o.isNull = false) :
    getPropOpt o k = getPropNN o k := by
  cases o <;> simp_all [Json.isNull, getPropOpt]

theorem finalizeReport_isSome (f : String) (x : Except Unit (List String)) :
    (finalizeReport f x).toOption.isSome = x.toOption.isSome := by
  cases x <;> simp [finalizeReport, Except.toOption]

theorem objBranchCore_ok_length (o n : Json) (f : String) (r : List String)
    (h : objBranchCore o n f = .ok r) : r.length = 1 := by
  simp only [objBranchCore] at h
  split at h
  · cases h; exact objBranchFinish_length ..
  · split at h
    · cases h; exact objBranchFinish_length ..
    · exact Except.noConfusion h

theorem finalizeReport_objBranch (o n : Json) (f : String) :
    finalizeReport f (objBranchReport o n f) = objBranchReport o n f := by
  unfold objBranchReport
  split
  · rfl
  · split
    · rfl
    · cases hc : objBranchCore o n f with
      | error e => simp [finalizeReport]
      | ok r =>
          have hr := objBranchCore_ok_length o n f r hc
          simp [finalizeReport, hr]

theorem Json.isArr_false_of_isPrim (o : Json) (h : o.isPrim = true) : o.isArr = false := by
  cases o <;> simp_all [Json.isPrim, Json.isArr]

theorem Json.typeofObject_false_of_isPrim (o : Json) (h : o.isPrim = true) :
    o.typeofObject = false := by
  cases o <;> simp_all [Json.isPrim, Json.typeofObject]

/-! ### Claim C2 -/

/-- C2, counterexample: the claim says `generateChangeReport` never
raises, but on the JSON inputs `(null, null)` it throws a `TypeError`
(JS `typeof null === 'object'` sends both into the object branch, where
`null.title` throws). -/
theorem c2_raises_on_null_counterexample :
    generateChangeReport .null .null "data/about.json" = .error () := by decide

/-- C2, amended: `generateChangeReport` returns a defined list of lines
for exactly those JSON input pairs that avoid the object branch's
throwing corners: it raises precisely when both inputs are JS
`typeof`-objects (`null`, list, or object), not both lists, and either
input is `null` or the or-defaulted `sections` values compare
length-equal while the old one is not a list.  On every other pair of
JSON-representable inputs the output is a defined, possibly degenerate,
list of text lines. -/
theorem c2_report_totality_characterized (o n : Json) (p : String) :
    (generateChangeReport o n p).toOption.isSome = !reportRaises o n := by
  unfold generateChangeReport reportRaises
  rw [finalizeReport_isSome]
  by_cases harr : (o.isArr && n.isArr) = true
  · simp [harr, Except.toOption]
  · have harr' : (o.isArr && n.isArr) = false := by
      revert harr; cases (o.isArr && n.isArr) <;> simp
    by_cases hobj : (o.typeofObject && n.typeofObject) = true
    · by_cases ho : o.isNull = true
      · simp [objBranchReport, ho, harr', hobj, Except.toOption]
      · have ho' : o.isNull = false := by revert ho; cases o.isNull <;> simp
        by_cases hn : n.isNull = true
        · simp [objBranchReport, ho', hn, harr', hobj, Except.toOption]
        · have hn' : n.isNull = false := by revert hn; cases n.isNull <;> simp
          simp [objBranchReport, ho', hn', harr', hobj,
            objBranchCore_isOk, getPropOpt_eq_getPropNN]
    · have hobj' : (o.typeofObject && n.typeofObject) = false := by
        revert hobj; cases (o.typeofObject && n.typeofObject) <;> simp
      simp [harr', hobj', Except.toOption]

/-! ### Claim C3 -/

/-- C3, counterexample: the claim says every mixed-shape pair (not both
lists, not both document-shaped) yields the generic `Updated` line; but
a document-shaped old content against a list new content lands in the
object branch (JS `typeof` is `'object'` for both) and reports `title`
instead. -/
theorem c3_mixed_shapes_counterexample :
    generateChangeReport (.obj [("title", .str "a"), ("sections", .arr [])])
        (.arr [.num 1]) "data/x.json" = .ok ["  - x.json: title"] ∧
    (Except.ok ["  - x.json: title"] : Except Unit (List String)) ≠
      .ok ["  - x.json: Updated"] := by
  exact ⟨by decide, by decide⟩

/-- C3, amended: the generic `Updated` line is emitted exactly for the
pairs in which at least one input is a primitive (boolean, number or
string); every pair of JS `typeof`-objects (`null`, list or object) that
is not two lists goes to the document branch instead — mixed
document/list pairs included. -/
theorem c3_updated_line_scope :
    (∀ (o n : Json) (p : String), (o.isPrim || n.isPrim) = true →
        generateChangeReport o n p = .ok ["  - " ++ fileNameOf p ++ ": Updated"]) ∧
    (∀ (o n : Json) (p : String),
        (o.typeofObject && n.typeofObject && !(o.isArr && n.isArr)) = true →
        generateChangeReport o n p = objBranchReport o n (fileNameOf p)) := by
  constructor
  · intro o n p h
    rcases Bool.or_eq_true_iff.mp h with hp | hp
    · have h1 := Json.isArr_false_of_isPrim o hp
      have h2 := Json.typeofObject_false_of_isPrim o hp
      simp [generateChangeReport, finalizeReport, h1, h2]
    · have h1 := Json.isArr_false_of_isPrim n hp
      have h2 := Json.typeofObject_false_of_isPrim n hp
      simp [generateChangeReport, finalizeReport, h1, h2]
  · intro o n p h
    rw [Bool.and_eq_true, Bool.and_eq_true] at h
    obtain ⟨⟨hto, htn⟩, h2⟩ := h
    have harr : (o.isArr && n.isArr) = false := by
      revert h2; cases (o.isArr && n.isArr) <;> simp
    simp only [generateChangeReport, harr, hto, htn, Bool.and_self, if_false,
      Bool.false_eq_true, if_true]
    exact finalizeReport_objBranch o n (fileNameOf p)

/-- C3, witness: a primitive input produces the `Updated` line. -/
theorem c3_updated_line_scope_witness :
    generateChangeReport (.num 1) (.str "s") "data/x.json" =
      .ok ["  - " ++ fileNameOf "data/x.json" ++ ": Updated"] :=
  c3_updated_line_scope.1 (.num 1) (.str "s") "data/x.json" (by decide)

/-! ### Claim C4 -/

theorem bne_eq_decide_ne (q : Json × Json) : (q.1 != q.2) = decide (q.1 ≠ q.2) := by
  by_cases hq : q.1 = q.2 <;> simp [hq]

/-- C4 (confirmed): for two lists, a length difference is reported as
the `oldCount → newCount entries` line plus an added-count line on
growth or a removed-count line on shrink; equal lengths are reported as
the number of indices whose entries differ structurally (`Modified k
entries`), with `No changes detected` when that count is zero.  In
particular 3 → 5 yields the claimed delta lines, and two lists of
length 4 differing at indices 1 and 3 yield `Modified 2 entries`. -/
theorem c4_list_delta_and_modification_reporting :
    (∀ (xs ys : List Json) (p : String), xs.length ≠ ys.length →
        generateChangeReport (.arr xs) (.arr ys) p =
          .ok (["  - " ++ fileNameOf p ++ ": " ++ toString xs.length ++ " → "
                  ++ toString ys.length ++ " entries"] ++
               (if xs.length < ys.length then
                  ["    • Added " ++ toString (ys.length - xs.length) ++ " new "
                    ++ (if ys.length - xs.length = 1 then "entry" else "entries")]
                else
                  ["    • Removed " ++ toString (xs.length - ys.length) ++ " "
                    ++ (if xs.length - ys.length = 1 then "entry" else "entries")]))) ∧
    (∀ (xs ys : List Json) (p : String), xs.length = ys.length →
        generateChangeReport (.arr xs) (.arr ys) p =
          .ok (if ((xs.zip ys).filter (fun q => q.1 ≠ q.2)).length > 0 then
                ["  - " ++ fileNameOf p ++ ": Modified "
                  ++ toString ((xs.zip ys).filter (fun q => q.1 ≠ q.2)).length ++ " "
                  ++ (if ((xs.zip ys).filter (fun q => q.1 ≠ q.2)).length = 1 then
                        "entry" else "entries")]
              else ["  - " ++ fileNameOf p ++ ": No changes detected"])) ∧
    generateChangeReport (.arr [.num 1, .num 2, .num 3])
        (.arr [.num 1, .num 2, .num 3, .num 4, .num 5]) "data/locations.json" =
      .ok ["  - locations.json: 3 → 5 entries", "    • Added 2 new entries"] ∧
    generateChangeReport (.arr [.num 1, .num 2, .num 3, .num 4])
        (.arr [.num 1, .num 9, .num 3, .num 8]) "data/times.json" =
      .ok ["  - times.json: Modified 2 entries"] := by
  refine ⟨?_, ?_, by decide, by decide⟩
  · intro xs ys p hne
    simp [generateChangeReport, finalizeReport, Json.isArr, Json.toArr,
      arrBranchReport, hne]
  · intro xs ys p heq
    simp only [generateChangeReport, finalizeReport, Json.isArr, Json.toArr,
      arrBranchReport, heq, Bool.and_self, if_true, ne_eq, not_true_eq_false, if_false,
      List.countP_eq_length_filter, bne_eq_decide_ne]
    split <;> simp_all

/-- C4, witness: the length-delta conjunct applied at a concrete pair of
lists of lengths 3 and 5. -/
theorem c4_list_delta_witness :
    generateChangeReport (.arr [.null, .null, .null])
        (.arr [.null, .null, .null, .null, .null]) "data/live.json" =
      .ok (["  - " ++ fileNameOf "data/live.json" ++ ": " ++ toString 3 ++ " → "
              ++ toString 5 ++ " entries"] ++
           ["    • Added " ++ toString 2 ++ " new " ++ "entries"]) := by
  have h := c4_list_delta_and_modification_reporting.1
    [.null, .null, .null] [.null, .null, .null, .null, .null] "data/live.json"
    (by decide)
  simpa using h

/-! ### Claim C5 -/

/-- A value of a shape the report generator recognizes, as the claim
words it: a list, or a document-shaped object carrying a string `title`
and a list `sections`. -/
def recognizedShape (x : Json) : Bool :=
  match x with
  | .arr _ => true
  | .obj _ =>
      (match getPropNN x "title" with | .val (.str _) => true | _ => false) &&
      (match getPropNN x "sections" with | .val (.arr _) => true | _ => false)
  | _ => false

theorem countP_enum_self (s : List Json) :
    (s.enum.countP (fun q =>
      match jsIndex (.arr s) q.1 with
      | .undefined => true
      | .val v => q.2 != v)) = 0 := by
  rw [List.countP_eq_zero]
  intro q hq
  obtain ⟨i, x⟩ := q
  have hx : s[i]? = some x := List.mem_enum_iff_getElem?.mp hq
  simp [jsIndex, hx]

/-- C5 (confirmed): on any value of a recognized shape — a list, or a
document-shaped object with a string `title` and a list `sections` —
comparing the value against itself reports `No changes detected`. -/
theorem c5_idempotent_no_changes (x : Json) (p : String) (h : recognizedShape x = true) :
    generateChangeReport x x p =
      .ok ["  - " ++ fileNameOf p ++ ": No changes detected"] := by
  cases x with
  | arr xs =>
      simp [generateChangeReport, finalizeReport, Json.isArr, Json.toArr,
        arrBranchReport, countP_zip_self_bne]
  | obj kvs =>
      rw [recognizedShape, Bool.and_eq_true] at h
      obtain ⟨h1, h2⟩ := h
      cases ht : getPropNN (.obj kvs) "title" with
      | undefined => rw [ht] at h1; simp at h1
      | val t =>
          rw [ht] at h1
          cases t <;> simp at h1
          case str s =>
          cases hs : getPropNN (.obj kvs) "sections" with
          | undefined => rw [hs] at h2; simp at h2
          | val sv =>
              rw [hs] at h2
              cases sv <;> simp at h2
              case arr secs =>
              by_cases hse : s = "" <;>
                simp [generateChangeReport, finalizeReport, Json.isArr, Json.typeofObject,
                  objBranchReport, Json.isNull, objBranchCore, ht, hs, hse,
                  jsOr, jsFalsy, strictEq, lenOf, countP_enum_self, objBranchFinish]
  | null => simp [recognizedShape] at h
  | bool b => simp [recognizedShape] at h
  | num n => simp [recognizedShape] at h
  | str s => simp [recognizedShape] at h

/-- C5, witness: a concrete list and a concrete document compared
against themselves both report no changes. -/
theorem c5_idempotent_no_changes_witness :
    generateChangeReport (.arr [.num 1, .str "x"]) (.arr [.num 1, .str "x"])
        "data/locations.json" =
      .ok ["  - " ++ fileNameOf "data/locations.json" ++ ": No changes detected"] :=
  c5_idempotent_no_changes (.arr [.num 1, .str "x"]) "data/locations.json" (by decide)

/-! ### Claim C6 -/

/-- C6 (confirmed): a 404 from the remote store is never surfaced as an
error: `GET /api/file/:name` answers 200 with `{sha: null, content:
<default>, notFound: true}` where the default is `[]` exactly for
`locations.json`, `times.json`, `repeating-events.json` and `live.json`
and `{title: "", sections: []}` for every other name; the batch
handler's old-content fetch substitutes the same defaults keyed by the
path's last segment. -/
theorem c6_notfound_default_substitution :
    (∀ name : String, (name = "" || name.data.contains '/') = false →
        fileGetHandler name (.httpError 404) =
          (.defaultResp (defaultForName name), some ("data/" ++ name))) ∧
    defaultForName "locations.json" = .arr [] ∧
    defaultForName "times.json" = .arr [] ∧
    defaultForName "repeating-events.json" = .arr [] ∧
    defaultForName "live.json" = .arr [] ∧
    (∀ name : String, name ∉ (["locations.json", "times.json",
        "repeating-events.json", "live.json"] : List String) →
        defaultForName name = .obj [("title", .str ""), ("sections", .arr [])]) ∧
    (∀ path : String, oldContentFor .notFound path = defaultForPath path) := by
  refine ⟨?_, by decide, by decide, by decide, by decide, ?_, fun path => rfl⟩
  · intro name h
    simp at h
    simp [fileGetHandler, h.1, h.2]
  · intro name h
    simp only [List.mem_cons, List.not_mem_nil, or_false, not_or] at h
    obtain ⟨h1, h2, h3, h4⟩ := h
    simp [defaultForName, h1, h2, h3, h4]

/-- C6, witness: the 404 response for a concrete document-shaped file
name. -/
theorem c6_notfound_default_substitution_witness :
    fileGetHandler "about.json" (.httpError 404) =
      (.defaultResp (defaultForName "about.json"), some ("data/" ++ "about.json")) :=
  c6_notfound_default_substitution.1 "about.json" (by decide)

/-! ### Claim C10 -/

/-- C10 (confirmed): `GET /api/file/:name` answers 400 `Invalid file
name` for an empty or slash-containing name without issuing any remote
request, and attempts a remote fetch of `data/<name>` exactly for the
non-empty slash-free names. -/
theorem c10_invalid_name_guard :
    (∀ (name : String) (fetch : FileFetch), (name = "" || name.data.contains '/') = true →
        fileGetHandler name fetch = (.invalidName, none)) ∧
    (∀ (name : String) (fetch : FileFetch), (name = "" || name.data.contains '/') = false →
        (fileGetHandler name fetch).2 = some ("data/" ++ name)) := by
  constructor <;> intro name fetch h <;> simp at h
  · simp [fileGetHandler, h]
  · simp [fileGetHandler, h.1, h.2]

/-- C10, witness: a slash-containing name and the empty name are
rejected with no remote request; a plain name triggers the `data/`
fetch. -/
theorem c10_invalid_name_guard_witness :
    fileGetHandler "a/b" (.found "s" .null) = (.invalidName, none) ∧
    fileGetHandler "" (.found "s" .null) = (.invalidName, none) ∧
    (fileGetHandler "about.json" (.found "s" .null)).2 = some ("data/" ++ "about.json") :=
  ⟨c10_invalid_name_guard.1 "a/b" (.found "s" .null) (by decide),
   c10_invalid_name_guard.1 "" (.found "s" .null) (by decide),
   c10_invalid_name_guard.2 "about.json" (.found "s" .null) (by decide)⟩

/-! ### Claim C8 -/

/-- C8, counterexample: the claim's composition — caller message, blank
line, `User:` line, blank line, then the report lines — misses the
`Changes:` header the code inserts after the second blank line. -/
theorem c8_changes_header_counterexample :
    composeCommitMessage (some "Edit locations") "a1b2" ["  - locations.json: Updated"] =
      "Edit locations\n\nUser: a1b2\n\nChanges:\n  - locations.json: Updated" ∧
    composeCommitMessage (some "Edit locations") "a1b2" ["  - locations.json: Updated"] ≠
      "Edit locations" ++ "\n\n" ++ "User: a1b2" ++ "\n\n" ++
        "  - locations.json: Updated" := by
  exact ⟨by decide, by decide⟩

/-- C8, amended: the final commit message is the caller-supplied message
(or the fixed fallback when absent or empty), a blank line, `User:
<actorTag>` — the actor tag being the user record's anonymized
`anonHash` (or `unknown`), never the username — then, when report lines
exist, a blank line, a `Changes:` header line and the newline-joined
change-report lines. -/
theorem c8_commit_message_composition :
    (∀ (m anon : String) (rs : List String), m ≠ "" → rs ≠ [] →
        composeCommitMessage (some m) anon rs =
          m ++ "\n\nUser: " ++ anon ++ "\n\nChanges:\n" ++ String.intercalate "\n" rs) ∧
    (∀ (anon : String) (rs : List String), rs ≠ [] →
        composeCommitMessage none anon rs =
          "Update files via dashboard" ++ "\n\nUser: " ++ anon ++ "\n\nChanges:\n"
            ++ String.intercalate "\n" rs) ∧
    (∀ (m anon : String), composeCommitMessage (some m) anon [] =
        (if m = "" then "Update files via dashboard" else m) ++ "\n\nUser: " ++ anon) ∧
    (∀ hash : String, hash ≠ "" → anonTagOf (some hash) = hash) ∧
    anonTagOf none = "unknown" ∧
    anonTagOf (some "") = "unknown" := by
  refine ⟨?_, ?_, ?_, ?_, rfl, rfl⟩
  · intro m anon rs hm hrs
    simp [composeCommitMessage, hm, List.length_pos.mpr hrs]
  · intro anon rs hrs
    simp [composeCommitMessage, List.length_pos.mpr hrs]
  · intro m anon
    simp [composeCommitMessage]
  · intro hash hh
    simp [anonTagOf, hh]

/-- C8, witness: the composition applied at a concrete message, tag and
report list. -/
theorem c8_commit_message_composition_witness :
    composeCommitMessage (some "m") (anonTagOf (some "a1b2")) ["line1", "line2"] =
      "m" ++ "\n\nUser: " ++ anonTagOf (some "a1b2") ++ "\n\nChanges:\n"
        ++ String.intercalate "\n" ["line1", "line2"] :=
  c8_commit_message_composition.1 "m" (anonTagOf (some "a1b2")) ["line1", "line2"]
    (by decide) (by decide)

/-! ### Claim C1 -/

theorem alookup_withIdx_blob (files : List FileReq) (rest : List (Nat × String)) :
    ∀ (k i : Nat) (f : FileReq), files[i]? = some f →
    alookup (((withIdx k files).map fun p => (blobIdOf p.1, jsonStringify4 p.2.content))
        ++ rest) (blobIdOf (k + i)) = some (jsonStringify4 f.content) := by
  induction files with
  | nil => intro k i f hi; simp at hi
  | cons f0 fs ih =>
      intro k i f hi
      cases i with
      | zero =>
          simp at hi
          subst hi
          simp [withIdx, alookup, blobIdOf]
      | succ j =>
          simp at hi
          have := ih (k + 1) j f hi
          simp only [withIdx, List.map_cons, List.cons_append, alookup, blobIdOf] at this ⊢
          rw [if_neg (by omega : ¬k = k + (j + 1))]
          have harith : k + 1 + j = k + (j + 1) := by omega
          rw [harith] at this
          exact this

theorem alookup_withIdx_path (files : List FileReq) :
    ∀ (k i : Nat) (f : FileReq),
    (files.map (fun f => f.path)).Nodup → files[i]? = some f →
    alookup ((withIdx k files).map fun p => (p.2.path, blobIdOf p.1)) f.path =
      some (blobIdOf (k + i)) := by
  induction files with
  | nil => intro k i f _ hi; simp at hi
  | cons f0 fs ih =>
      intro k i f hnd hi
      simp only [List.map_cons, List.nodup_cons] at hnd
      cases i with
      | zero =>
          simp at hi
          subst hi
          simp [withIdx, alookup, blobIdOf]
      | succ j =>
          simp at hi
          have hfmem : f ∈ fs := by
            obtain ⟨hlt, he⟩ := List.getElem?_eq_some.mp hi
            exact he ▸ List.getElem_mem hlt
          have hne : f0.path ≠ f.path := by
            intro he
            exact hnd.1 (he ▸ List.mem_map_of_mem (fun g => g.path) hfmem)
          have := ih (k + 1) j f hnd.2 hi
          simp only [withIdx, List.map_cons, alookup] at this ⊢
          rw [if_neg hne]
          have harith : k + 1 + j = k + (j + 1) := by omega
          rw [harith] at this
          exact this

theorem commitTreeHas_final (refs0 : List (String × Nat)) (commits0 : List (Nat × CommitObj))
    (trees0 : List (Nat × List (String × Nat))) (blobs0 : List (Nat × String))
    (message : String) (files : List FileReq) (latest : Nat)
    (baseEntries : List (String × Nat))
    (hnd : (files.map (fun f => f.path)).Nodup) (f : FileReq) (hf : f ∈ files) :
    commitTreeHas
      ⟨refs0,
       (newCommitId, ⟨message, newTreeId, [latest]⟩) :: commits0,
       (newTreeId, ((withIdx 0 files).map fun p => (p.2.path, blobIdOf p.1)) ++ baseEntries)
         :: trees0,
       ((withIdx 0 files).map fun p => (blobIdOf p.1, jsonStringify4 p.2.content)) ++ blobs0⟩
      newCommitId f.path (jsonStringify4 f.content) := by
  obtain ⟨i, hlt, he⟩ := List.mem_iff_getElem.mp hf
  have hi : files[i]? = some f := by
    rw [List.getElem?_eq_some]
    exact ⟨hlt, he⟩
  refine ⟨⟨message, newTreeId, [latest]⟩,
          ((withIdx 0 files).map fun p => (p.2.path, blobIdOf p.1)) ++ baseEntries,
          blobIdOf i, ?_, ?_, ?_, ?_⟩
  · simp [alookup]
  · simp [alookup]
  · have hp := alookup_withIdx_path files 0 i f hnd hi
    simp only [Nat.zero_add] at hp
    exact alookup_append_left _ hp
  · have hb := alookup_withIdx_blob files blobs0 0 i f hi
    simp only [Nat.zero_add] at hb
    exact hb

set_option maxHeartbeats 1000000 in
/-- C1 (confirmed): for any batch request with at least one file (and,
as the spec's `CommitRequest` demands, no duplicate paths), if
`commitBatch` returns success then the branch ref points at the new
commit, whose tree maps every requested path to a blob holding exactly
the 4-space-indented serialization of the requested content; if it
returns failure — at any step, the thrown report `TypeError` included —
the branch ref is exactly as before the call: every failure exit
happens before the non-forced ref update, which is the final remote
write. -/
theorem c1_commitBatch_atomicity (o : Oracle) (branch : String) (files : List FileReq)
    (msg : Option String) (anon : String) (st : GitState)
    (hne : files ≠ []) (hnd : (files.map (fun f => f.path)).Nodup) :
    (∀ (sha : Nat) (st' : GitState),
        commitBatch o branch files msg anon st = (.ok sha, st') →
        alookup st'.refs branch = some sha ∧
        ∀ f ∈ files, commitTreeHas st' sha f.path (jsonStringify4 f.content)) ∧
    (∀ (e : BatchError) (st' : GitState),
        commitBatch o branch files msg anon st = (.error e, st') →
        st'.refs = st.refs) := by
  constructor
  · intro sha st' h
    unfold commitBatch at h
    simp only [] at h
    cases hR : reportsAll (((withIdx 0 files).map fun p =>
        oldContentFor (o.oldFetch p.1) p.2.path).zip files) with
    | error err =>
        rw [hR] at h
        repeat' split at h
        all_goals first
          | contradiction
          | exact Except.noConfusion (congrArg Prod.fst h)
    | ok rs =>
        rw [hR] at h
        repeat' split at h
        any_goals contradiction
        any_goals exact Except.noConfusion (congrArg Prod.fst h)
        have hfst : newCommitId = sha := by
          have := congrArg Prod.fst h
          simpa using this
        have hsnd := congrArg Prod.snd h
        simp only at hsnd
        subst hfst
        subst hsnd
        constructor
        · exact alookup_aupdate_self ..
        · intro f hf
          exact commitTreeHas_final _ _ _ _ _ files _ _ hnd f hf
  · intro e st' h
    unfold commitBatch at h
    simp only [] at h
    cases hR : reportsAll (((withIdx 0 files).map fun p =>
        oldContentFor (o.oldFetch p.1) p.2.path).zip files) with
    | error err =>
        rw [hR] at h
        repeat' split at h
        all_goals first
          | contradiction
          | exact Except.noConfusion (congrArg Prod.fst h)
          | (injection h with h1 h2; rw [← h2])
    | ok rs =>
        rw [hR] at h
        repeat' split at h
        all_goals first
          | contradiction
          | exact Except.noConfusion (congrArg Prod.fst h)
          | (injection h with h1 h2; rw [← h2])

/-- A failure-free oracle whose old-content fetches all answer an empty
list. -/
def oracleAllOk : Oracle :=
  ⟨false, false, fun _ => .success (.arr []), fun _ => false, false, false, false⟩

/-- A small well-formed store: one branch, one commit, one tree, one
blob. -/
def demoGitState : GitState :=
  ⟨[("main", 77)], [(77, ⟨"init", 55, []⟩)], [(55, [("README.md", 9)])], [(9, "readme")]⟩

/-- A one-file batch request. -/
def demoFiles : List FileReq := [⟨"data/locations.json", .arr [.num 1]⟩]

/-- C1, witness: on the demo store with a failure-free oracle the batch
succeeds, the branch ref lands on the new commit, and the new tree
carries the requested file. -/
theorem c1_commitBatch_atomicity_witness :
    (commitBatch oracleAllOk "main" demoFiles (some "m") "anon" demoGitState).1 =
      .ok newCommitId ∧
    alookup (commitBatch oracleAllOk "main" demoFiles (some "m") "anon"
      demoGitState).2.refs "main" = some newCommitId ∧
    commitTreeHas (commitBatch oracleAllOk "main" demoFiles (some "m") "anon"
      demoGitState).2 newCommitId "data/locations.json"
      (jsonStringify4 (.arr [.num 1])) := by
  have hc := c1_commitBatch_atomicity oracleAllOk "main" demoFiles (some "m") "anon"
    demoGitState (by decide) (by decide)
  have hfst : (commitBatch oracleAllOk "main" demoFiles (some "m") "anon"
      demoGitState).1 = .ok newCommitId := by rfl
  have heq : commitBatch oracleAllOk "main" demoFiles (some "m") "anon" demoGitState =
      (.ok newCommitId, (commitBatch oracleAllOk "main" demoFiles (some "m") "anon"
        demoGitState).2) :=
    Prod.ext hfst rfl
  obtain ⟨h1, h2⟩ := hc.1 newCommitId _ heq
  exact ⟨hfst, h1, h2 ⟨"data/locations.json", .arr [.num 1]⟩ (by simp [demoFiles])⟩

/-! ### Claim C7 -/

/-- An oracle whose old-content fetches all fail with an upstream 500;
every other call succeeds. -/
def oracleBadFetch : Oracle :=
  ⟨false, false, fun _ => .otherError 500, fun _ => false, false, false, false⟩

/-- An oracle whose old-content fetches answer the JSON string `"x"`. -/
def oracleStrFetch : Oracle :=
  ⟨false, false, fun _ => .success (.str "x"), fun _ => false, false, false, false⟩

/-- C7, counterexample: a non-404 old-content fetch failure is not
always non-fatal.  With new content `null` for `data/about.json`, the
degraded comparison pits the default document skeleton (a JS object)
against `null` (also `typeof` `'object'`), so the report generator
throws and the whole batch aborts with no ref update — while the very
same request with a successful fetch of a string old content proceeds
to a commit. -/
theorem c7_degraded_comparison_throw_counterexample :
    (commitBatch oracleBadFetch "main" [⟨"data/about.json", .null⟩] none "a"
       demoGitState).1 = .error .reportException ∧
    (commitBatch oracleBadFetch "main" [⟨"data/about.json", .null⟩] none "a"
       demoGitState).2.refs = demoGitState.refs ∧
    (commitBatch oracleStrFetch "main" [⟨"data/about.json", .null⟩] none "a"
       demoGitState).1 = .ok newCommitId :=
  ⟨rfl, rfl, rfl⟩

/-- C7, amended: every old-content fetch failure — 404, invalid JSON,
or any other upstream error — degrades the comparison to the
type-appropriate default skeleton, and the batch proceeds to blob,
tree, commit and ref update provided the degraded report generation
itself returns (it can throw, e.g. when the new content is `null`);
with all later steps healthy the commit lands regardless of the fetch
outcomes. -/
theorem c7_fetch_failures_nonfatal :
    (∀ (path : String) (s : Nat),
        oldContentFor .notFound path = defaultForPath path ∧
        oldContentFor .parseError path = defaultForPath path ∧
        oldContentFor (.otherError s) path = defaultForPath path) ∧
    (∀ (o : Oracle) (branch : String) (files : List FileReq) (msg : Option String)
        (anon : String) (st : GitState) (tip : Nat) (bc : CommitObj)
        (be : List (String × Nat)) (rs : List String),
        o.refFail = false → o.commitFail = false → (∀ i, o.blobFail i = false) →
        o.treeFail = false → o.createCommitFail = false → o.refUpdateFail = false →
        files.length ≠ 0 →
        alookup st.refs branch = some tip →
        alookup st.commits tip = some bc →
        alookup st.trees bc.tree = some be →
        reportsAll (((withIdx 0 files).map fun p =>
          oldContentFor (o.oldFetch p.1) p.2.path).zip files) = .ok rs →
        (commitBatch o branch files msg anon st).1 = .ok newCommitId) := by
  constructor
  · intro path s
    exact ⟨rfl, rfl, rfl⟩
  · intro o branch files msg anon st tip bc be rs h1 h2 h3 h4 h5 h6 hlen htip hbc hbe hR
    have hany : (List.range files.length).any o.blobFail = false := by
      rw [List.any_eq_false]
      intro i _
      simp [h3 i]
    unfold commitBatch
    simp only []
    rw [hR]
    simp [h1, h2, h4, h5, h6, hlen, htip, hbc, hbe, hany]

/-- C7, witness: a batch whose only file's old-content fetch fails with
a 500 still lands its commit (the comparison ran against the default
`[]` skeleton). -/
theorem c7_fetch_failures_nonfatal_witness :
    (commitBatch oracleBadFetch "main" demoFiles none "a" demoGitState).1 =
      .ok newCommitId :=
  c7_fetch_failures_nonfatal.2 oracleBadFetch "main" demoFiles none "a" demoGitState
    77 ⟨"init", 55, []⟩ [("README.md", 9)]
    ["  - locations.json: 0 → 1 entries", "    • Added 1 new entry"]
    rfl rfl (fun _ => rfl) rfl rfl rfl (by decide) rfl rfl rfl (by decide)

/-! ### Claim C9 -/

/-- A times entry whose datetime lies in the past relative to the demo
`now`. -/
def demoEntry : Json :=
  .obj [("datetime", .str "2020-01-01T10:00:00"), ("locationId", .str "hull")]

/-- A remote store holding one `times.json` revision `s1`. -/
def demoRemote : RemoteModel :=
  ⟨fun n => if n = "times.json" then some ("s1", .arr [demoEntry]) else none,
   fun s => if s = "s1" then some (.arr [demoEntry]) else none⟩

/-- A `Date.parse` stand-in under which the demo entry's datetime
parses to timestamp 0 (in the past of the demo `now = 100`). -/
def demoParseDate : String → Option Int := fun _ => some 0

theorem demoRemote_coherent : demoRemote.Coherent := by
  intro n s c h
  by_cases hn : n = "times.json" <;> simp [demoRemote, hn] at h
  obtain ⟨hs, hc⟩ := h
  simp [demoRemote, ← hs, ← hc]

/-- C9, counterexample: after loading `times.json` from a coherent
remote whose stored list holds one past-dated entry, the tracked file
has `dirty = false` but its content (the filtered, empty list) is not
bit-for-bit equal to what a fresh fetch at the stored revision marker
returns (the original one-entry list). -/
theorem c9_times_filter_counterexample :
    clientRun demoRemote demoParseDate 100 [.load "times.json"] =
      [("times.json", ⟨.arr [], some "s1", false⟩)] ∧
    fetchAtMarker demoRemote "times.json" (some "s1") = some (.arr [demoEntry]) ∧
    Json.arr [] ≠ Json.arr [demoEntry] := by
  refine ⟨rfl, rfl, by decide⟩

/-- C9, amended: for every client state reachable by loading and
editing alone (a successful push clears dirty flags without refreshing
revision markers, so push states are excluded), every tracked file with
`dirty = false` holds one of the client's load transforms of the fetch
of its path at its stored revision marker: either the fetched value
or-defaulted to `[]` — the ensure effects, among them the live-editor's
unfiltered `times.json` load — or the fetched value after the selected-
file load's transform, the identity except for `times.json`, whose list
drops entries with unparseable or past datetimes. -/
theorem c9_clean_files_match_transformed_fetch (r : RemoteModel) (pd : String → Option Int) (now : Int)
    (hcoh : r.Coherent) (evs : List ClientEvent) (hnp : ∀ e ∈ evs, e ≠ .push) :
    ∀ name fs, alookup (clientRun r pd now evs) name = some fs → fs.dirty = false →
    ∃ orig, fetchAtMarker r name fs.sha = some orig ∧
      (fs.content = jsOr (.val orig) (.arr []) ∨
       fs.content = timesClientContent pd now name orig) := by
  have main : ∀ (l : List ClientEvent), (∀ e ∈ l, e ≠ .push) →
      ∀ st : List (String × ClientFile),
      (∀ name fs, alookup st name = some fs → fs.dirty = false →
        ∃ orig, fetchAtMarker r name fs.sha = some orig ∧
          (fs.content = jsOr (.val orig) (.arr []) ∨
           fs.content = timesClientContent pd now name orig)) →
      (∀ name fs, alookup (l.foldl (clientStep r pd now) st) name = some fs →
        fs.dirty = false →
        ∃ orig, fetchAtMarker r name fs.sha = some orig ∧
          (fs.content = jsOr (.val orig) (.arr []) ∨
           fs.content = timesClientContent pd now name orig)) := by
    intro l
    induction l with
    | nil => intro _ st hst; exact hst
    | cons e es ih =>
        intro hnp' st hst
        simp only [List.foldl_cons]
        apply ih (fun e' he' => hnp' e' (List.mem_cons_of_mem _ he'))
        cases e with
        | push => exact absurd rfl (hnp' .push (List.mem_cons_self ..))
        | load nm =>
            intro name fs hlk hdirty
            simp only [clientStep] at hlk
            cases hpres : alookup st nm with
            | some g =>
                rw [hpres] at hlk
                exact hst name fs hlk hdirty
            | none =>
                rw [hpres] at hlk
                cases hhead : r.head nm with
                | some pr =>
                    obtain ⟨sha, content⟩ := pr
                    rw [hhead] at hlk
                    by_cases hname : name = nm
                    · subst hname
                      rw [alookup_aupdate_self] at hlk
                      cases hlk
                      refine ⟨content, ?_, Or.inr rfl⟩
                      simp [fetchAtMarker, hcoh name sha content hhead]
                    · rw [alookup_aupdate_other st nm name _
                        (fun he => hname he.symm)] at hlk
                      exact hst name fs hlk hdirty
                | none =>
                    rw [hhead] at hlk
                    by_cases hname : name = nm
                    · subst hname
                      rw [alookup_aupdate_self] at hlk
                      cases hlk
                      exact ⟨defaultForName name, rfl, Or.inr rfl⟩
                    · rw [alookup_aupdate_other st nm name _
                        (fun he => hname he.symm)] at hlk
                      exact hst name fs hlk hdirty
        | loadEnsure nm =>
            intro name fs hlk hdirty
            simp only [clientStep] at hlk
            cases hpres : alookup st nm with
            | some g =>
                rw [hpres] at hlk
                exact hst name fs hlk hdirty
            | none =>
                rw [hpres] at hlk
                cases hhead : r.head nm with
                | some pr =>
                    obtain ⟨sha, content⟩ := pr
                    rw [hhead] at hlk
                    by_cases hname : name = nm
                    · subst hname
                      rw [alookup_aupdate_self] at hlk
                      cases hlk
                      refine ⟨content, ?_, Or.inl rfl⟩
                      simp [fetchAtMarker, hcoh name sha content hhead]
                    · rw [alookup_aupdate_other st nm name _
                        (fun he => hname he.symm)] at hlk
                      exact hst name fs hlk hdirty
                | none =>
                    rw [hhead] at hlk
                    by_cases hname : name = nm
                    · subst hname
                      rw [alookup_aupdate_self] at hlk
                      cases hlk
                      exact ⟨defaultForName name, rfl, Or.inl rfl⟩
                    · rw [alookup_aupdate_other st nm name _
                        (fun he => hname he.symm)] at hlk
                      exact hst name fs hlk hdirty
        | edit nm next =>
            intro name fs hlk hdirty
            simp only [clientStep] at hlk
            cases hpres : alookup st nm with
            | some g =>
                rw [hpres] at hlk
                by_cases hname : name = nm
                · subst hname
                  rw [alookup_aupdate_self] at hlk
                  cases hlk
                  simp at hdirty
                · rw [alookup_aupdate_other st nm name _
                    (fun he => hname he.symm)] at hlk
                  exact hst name fs hlk hdirty
            | none =>
                rw [hpres] at hlk
                by_cases hname : name = nm
                · subst hname
                  rw [alookup_aupdate_self] at hlk
                  cases hlk
                  simp at hdirty
                · rw [alookup_aupdate_other st nm name _
                    (fun he => hname he.symm)] at hlk
                  exact hst name fs hlk hdirty
  exact main evs hnp [] (fun name fs h _ => by simp [alookup] at h)

/-- C9, witness: a load of a remotely absent `locations.json` stores the
default skeleton clean and matches the (default-substituting) fetch at
its `null` marker; an ensure-load of `times.json` while editing
`live.json` stores the raw (unfiltered) remote list clean, covered by
the or-defaulted disjunct. -/
theorem c9_clean_files_match_transformed_fetch_witness :
    (∃ orig, fetchAtMarker demoRemote "locations.json" none = some orig ∧
      ((Json.arr []) = jsOr (.val orig) (.arr []) ∨
       (Json.arr []) = timesClientContent demoParseDate 100 "locations.json" orig)) ∧
    (∃ orig, fetchAtMarker demoRemote "times.json" (some "s1") = some orig ∧
      ((Json.arr [demoEntry]) = jsOr (.val orig) (.arr []) ∨
       (Json.arr [demoEntry]) = timesClientContent demoParseDate 100 "times.json" orig)) :=
  ⟨c9_clean_files_match_transformed_fetch demoRemote demoParseDate 100 demoRemote_coherent
    [.load "locations.json"]
    (fun e he => by
      rw [List.mem_singleton] at he
      subst he
      exact fun h => ClientEvent.noConfusion h)
    "locations.json" ⟨.arr [], none, false⟩ rfl rfl,
   c9_clean_files_match_transformed_fetch demoRemote demoParseDate 100 demoRemote_coherent
    [.loadEnsure "times.json"]
    (fun e he => by
      rw [List.mem_singleton] at he
      subst he
      exact fun h => ClientEvent.noConfusion h)
    "times.json" ⟨.arr [demoEntry], some "s1", false⟩ rfl rfl⟩
